import Mathlib

set_option maxRecDepth 8192

/-!
# A verification development for `orphanage.js`

This file gives a shallow embedding, in Lean 4, of the orphan-finding and
orphan-removing engine of `orphanage.js` (the `Orphans.find` scan, the scan
result's cursor methods `hasNext` / `current` / `next` / `rewind`, and the
removal operations `remove` / `removeAll`), together with theorems settling a
list of claims about that code.

Modelling conventions:

* Shard-key values are modelled as `Int`; the scan state's `maxRange` and
  `lastMin` fields start as the empty document `{}`, modelled as
  `Option Int = none`, which `bsonWoCompare` orders strictly below every
  concrete key.
* The JavaScript scan pushes the *same* chunk object (mutated in place with
  `orphanedOn` / `orphanCount`) once per offending shard, so entries of
  `badChunks` can alias one another.  To model this faithfully, `ScanState`
  stores the chunk objects in a `heap : List BadChunk` and `badChunks` is a
  list of references (indices) into that heap; one heap cell is allocated per
  chunk object produced by an iteration of the chunk loop.
* Database effects are environments: `FindEnv` supplies the cluster answers
  the scan queries (`isdbgrid`, balancer flags, the shard list, per-shard
  collection counts, the chunk cursor's output, and the per-shard range count
  query), and `RemoveEnv` supplies the removal-side answers (the paranoia
  flag, a time-indexed balancer state sampled once per delete batch, a
  time-indexed delete-error oracle for `getLastError`, and the `_id` list the
  offending shard's range query returns).  A global batch counter threads
  through removals: each delete batch consumes one time index, at which both
  the paranoia check and the delete's `getLastError` are sampled.
* Thrown shell assertions are modelled as an explicit `thrown` field;
  `print` calls have no observable effect except where a claim is about the
  message, in which case the message string is the observable.
-/

/-- `bsonWoCompare a b < 0` where `a` is the stored `maxRange`/`lastMin`
(initially the empty document, which sorts below everything) and `b` is a
concrete key. -/
def ltOptKey : Option Int → Int → Bool
  | none, _ => true
  | some a, b => a < b

/-- `bsonWoCompare a b <= 0` with the same conventions as `ltOptKey`. -/
def leOptKey : Option Int → Int → Bool
  | none, _ => true
  | some a, b => a ≤ b

/-- A chunk document from `config.chunks`: `_id`, `min`, `max` bounds and the
owning shard recorded in the metadata. -/
structure Chunk where
  id : String
  min : Int
  max : Int
  shard : String
deriving DecidableEq

/-- A bad-chunk object: the chunk document as mutated by the scan, carrying
`orphanedOn` / `orphanCount` set by the shard loop and the `removed` /
`numRemoved` fields set by a successful `remove()`.  Freshly scanned chunks
have `removed = false` (the JS field is absent, hence falsy) and
`numRemoved = 0`. -/
structure BadChunk where
  chunk : Chunk
  orphanedOn : String
  orphanCount : Nat
  removed : Bool
  numRemoved : Nat
deriving DecidableEq

/-- The mutable scan-result object built by `Orphans.find`.  `heap` is the
object store for chunk objects; `badChunks` is the `result.badChunks` array,
holding references (heap indices) so that the JS aliasing of repeated pushes
of one object is represented.  `iter` is `result._iter`, starting at `-1`. -/
structure ScanState where
  heap : List BadChunk
  badChunks : List Nat
  maxRange : Option Int
  lastMin : Option Int
  count : Nat
  shardCounts : List (String × Nat)
  iter : Int
deriving DecidableEq

/-- The scan state `Orphans.find` starts from. -/
def initScan : ScanState :=
  { heap := [], badChunks := [], maxRange := none, lastMin := none,
    count := 0, shardCounts := [], iter := -1 }

/-- `result.hasNext()`: `this.badChunks.length > this._iter + 1`. -/
def ScanState.hasNext (s : ScanState) : Bool :=
  (s.badChunks.length : Int) > s.iter + 1

/-- The reference held at `badChunks[_iter]`; `none` when the index is out of
range (a JS array read off the end yields `undefined`). -/
def ScanState.currentRef (s : ScanState) : Option Nat :=
  if s.iter < 0 then none else s.badChunks[s.iter.toNat]?

/-- `result.current()`: the object `badChunks[_iter]` refers to, `none` when
the position is out of range. -/
def ScanState.current (s : ScanState) : Option BadChunk :=
  s.currentRef.bind (fun r => s.heap[r]?)

/-- `result.next()`: increment `_iter`, then return `current()` (which is
`undefined`, i.e. `none`, when the new position is past the end — the source
raises no error). -/
def ScanState.next (s : ScanState) : ScanState × Option BadChunk :=
  let s2 : ScanState := { s with iter := s.iter + 1 }
  (s2, s2.current)

/-- `result.rewind()`: reset `_iter` to `-1`. -/
def ScanState.rewind (s : ScanState) : ScanState :=
  { s with iter := -1 }

/-- The environment a scan runs against: the answers the cluster gives to
each query `Orphans.find` issues. `orphanQuery sh lo hi` is the `itcount()`
of the range query `[lo, hi)` on shard `sh`; `collCount sh` is the total
document count probe used to skip empty shards. -/
structure FindEnv where
  isdbgrid : Bool
  balancerState : Bool
  balancerRunning : Bool
  precise : Bool
  shards : List String
  collCount : String → Nat
  chunks : List Chunk
  orphanQuery : String → Int → Int → Nat

/-- Update of `result.shardCounts[shard] += n`, preserving JS object key
insertion order. -/
def bumpCount : List (String × Nat) → String → Nat → List (String × Nat)
  | [], s, n => [(s, n)]
  | (s', m) :: rest, s, n =>
      if s' = s then (s', m + n) :: rest else (s', m) :: bumpCount rest s n

/-- The offending shards of one chunk, in connection-iteration order: every
connected shard other than the chunk's owner whose range count is positive,
paired with that count. -/
def offenders (conns : List String) (q : String → Int → Int → Nat)
    (c : Chunk) : List (String × Nat) :=
  conns.filterMap (fun s =>
    if s = c.shard then none
    else if 0 < q s c.min c.max then some (s, q s c.min c.max) else none)

/-- Effect of one chunk's shard loop on the scan state.  The loop mutates one
chunk object and pushes a reference to it once per offending shard, so the
final state holds one fresh heap cell whose `orphanedOn` / `orphanCount` are
those of the *last* offending shard, referenced `off.length` times, while
`count` and `shardCounts` accumulate every offender's true count. -/
def applyOffenders (c : Chunk) (st : ScanState) (off : List (String × Nat)) :
    ScanState :=
  match off.getLast? with
  | none => st
  | some last =>
      { st with
        count := st.count + (off.map (fun p => p.2)).sum
        shardCounts := off.foldl (fun sc p => bumpCount sc p.1 p.2) st.shardCounts
        heap := st.heap ++ [⟨c, last.1, last.2, false, 0⟩]
        badChunks := st.badChunks ++ List.replicate off.length st.heap.length }

/-- One iteration of the chunk cursor's `forEach` body in `Orphans.find`:
the precise-mode duplicate check first (which can throw
`"Chunk order is screwed!"`), then the shard loop — which the source runs for
every chunk, including ones the precise check reported as skipped. -/
def scanChunk (precise : Bool) (conns : List String)
    (q : String → Int → Int → Nat) (st : ScanState) (c : Chunk) :
    Except String ScanState :=
  let chk : Except String ScanState :=
    if precise then
      if ltOptKey st.maxRange c.max then
        .ok { st with maxRange := some c.max, lastMin := some c.min }
      else if leOptKey st.lastMin c.min then .ok st
      else .error "Chunk order is screwed!"
    else .ok st
  chk.map (fun st1 => applyOffenders c st1 (offenders conns q c))

/-- `Orphans.find(namespace)`: the three precondition asserts, then the
connection filter dropping shards with no documents, then the fold of the
chunk loop over the chunk cursor's output. -/
def Orphans.find (env : FindEnv) : Except String ScanState :=
  if env.isdbgrid = false then .error "Not a sharded cluster"
  else if env.balancerState then .error "Balancer must be stopped first"
  else if env.balancerRunning then
    .error "Balancer is still running, wait for it to finish"
  else
    env.chunks.foldlM
      (scanChunk env.precise (env.shards.filter (fun s => 0 < env.collCount s))
        env.orphanQuery)
      initScan

/-- The observable contents of `result.badChunks`: each reference resolved
against the heap. -/
def scanEntries (st : ScanState) : List BadChunk :=
  st.badChunks.filterMap (fun r => st.heap[r]?)

/-- The environment a removal runs against.  `balancerActive t` samples
`sh.getBalancerState() || sh.isBalancerRunning()` at batch time `t`;
`deleteError t` tells whether `getLastError()` reports an error for the
delete issued at batch time `t`; `docs sh lo hi` is the `_id` list returned
by the offending shard's range query. -/
structure RemoveEnv where
  paranoia : Bool
  balancerActive : Nat → Bool
  deleteError : Nat → Bool
  docs : String → Int → Int → List Nat

/-- The grouping the id-cursor loop performs: ids accumulate into `pending`
and flush into a batch once 100 have accumulated, or when the cursor is
exhausted with a non-empty remainder (`idsToRemove.length >= 100 ||
(!toRemove.hasNext() && idsToRemove.length > 0)`). -/
def batchAux : List Nat → List Nat → List (List Nat)
  | [], _ => []
  | i :: rest, pending =>
      let p2 := pending ++ [i]
      if 100 ≤ p2.length ∨ rest = [] then p2 :: batchAux rest []
      else batchAux rest p2

/-- The delete batches the id-cursor loop issues for an id list: its blocks
of 100, the last one possibly shorter. -/
def batchesOf (ids : List Nat) : List (List Nat) :=
  batchAux ids []

/-- Outcome of the delete-batch loop of `remove()`. -/
structure BatchOut where
  removedCount : Nat
  time : Nat
  issued : List (List Nat)
  errorFlag : Bool
  tripped : Bool
deriving DecidableEq

/-- The delete-batch loop: for each batch, the balancer-paranoia assert (which
aborts the loop with `tripped` when the balancer is observed active), then the
bulk delete, consuming one time index; a `getLastError` failure sets
`errorFlag` and breaks, a success adds the batch size to `removedCount`. -/
def runBatches (env : RemoveEnv) :
    List (List Nat) → Nat → Nat → List (List Nat) → BatchOut
  | [], t, acc, iss => ⟨acc, t, iss, false, false⟩
  | b :: bs, t, acc, iss =>
      if env.paranoia && env.balancerActive t then ⟨acc, t, iss, false, true⟩
      else if env.deleteError t then ⟨acc, t + 1, iss ++ [b], true, false⟩
      else runBatches env bs (t + 1) (acc + b.length) (iss ++ [b])

/-- Observable outcome of one `remove()` call: the updated scan state, the
returned count, the assertion thrown (if any), the advanced batch counter,
the delete commands issued, and whether a delete error was reported. -/
structure RemoveOut where
  st : ScanState
  ret : Nat
  thrown : Option String
  time : Nat
  issued : List (List Nat)
  deleteErr : Bool
deriving DecidableEq

/-- The message of the balancer-paranoia assert in `remove()`. -/
def balancerMsg : String :=
  "Balancer unexpectedly enabled. Discard previous results and start again."

/-- Dispatch on the outcome of the delete-batch loop, the tail of
`result.remove()`. -/
def ScanState.removeCore (s : ScanState) (r : Nat) (b : BadChunk)
    (out : BatchOut) : RemoveOut :=
  if out.tripped then
    ⟨s, out.removedCount, some balancerMsg, out.time, out.issued, false⟩
  else if out.errorFlag then
    ⟨s, out.removedCount, none, out.time, out.issued, true⟩
  else
    let b2 : BadChunk := { b with removed := true, numRemoved := out.removedCount }
    ⟨{ s with heap := s.heap.set r b2 },
     out.removedCount, none, out.time, out.issued, false⟩

/-- `result.remove()`: the five guard clauses each return `0` with no
effect; otherwise run the delete-batch loop on the offending shard's ids for
the current chunk's bounds (`removeCore` above dispatches on the loop's
outcome: a paranoia trip propagates as a thrown assertion leaving the chunk
unmarked, a delete error leaves the chunk unmarked and returns the partial
count, and full success sets the chunk object's `removed` / `numRemoved`). -/
def ScanState.remove (s : ScanState) (env : RemoveEnv) (t : Nat) : RemoveOut :=
  if s.count = 0 ∨ s.badChunks.length = 0 then ⟨s, 0, none, t, [], false⟩
  else if s.iter < 0 then ⟨s, 0, none, t, [], false⟩
  else if (s.badChunks.length : Int) ≤ s.iter then ⟨s, 0, none, t, [], false⟩
  else
    match s.badChunks[s.iter.toNat]? with
    | none => ⟨s, 0, none, t, [], false⟩
    | some r =>
      match s.heap[r]? with
      | none => ⟨s, 0, none, t, [], false⟩
      | some b =>
        if b.removed then ⟨s, 0, none, t, [], false⟩
        else
          s.removeCore r b
            (runBatches env (batchesOf (env.docs b.orphanedOn b.chunk.min b.chunk.max)) t 0 [])

/-- Observable outcome of `removeAll()`. -/
structure RemoveAllOut where
  st : ScanState
  ret : Nat
  thrown : Option String
  time : Nat
  issued : List (List Nat)
deriving DecidableEq

/-- The `removeAll` loop: while `hasNext()`, advance the cursor and call
`remove()`, summing the returns; a thrown assertion propagates, abandoning the
running sum but keeping all state mutations made so far.  The fuel equals the
number of bad chunks, which (as proved below) is enough for the loop to run
until `hasNext()` is false. -/
def removeAllLoop (env : RemoveEnv) :
    Nat → ScanState → Nat → Nat → List (List Nat) → RemoveAllOut
  | 0, s, num, t, iss => ⟨s, num, none, t, iss⟩
  | fuel + 1, s, num, t, iss =>
      if s.hasNext then
        let s2 : ScanState := { s with iter := s.iter + 1 }
        let r := s2.remove env t
        match r.thrown with
        | some m => ⟨r.st, num, some m, r.time, iss ++ r.issued⟩
        | none => removeAllLoop env fuel r.st (num + r.ret) r.time (iss ++ r.issued)
      else ⟨s, num, none, t, iss⟩

/-- `result.removeAll(secs)`: rewind, then the removal loop.  The optional
sleep between chunks has no observable effect in the model. -/
def ScanState.removeAll (s : ScanState) (env : RemoveEnv) (t : Nat) :
    RemoveAllOut :=
  removeAllLoop env s.badChunks.length s.rewind 0 t []

/-- The cursor-exhaustion loop `while (hasNext()) next()`, collecting each
`next()` return, together with the state the loop ends in. -/
def visitLoop : Nat → ScanState → List (Option BadChunk) × ScanState
  | 0, s => ([], s)
  | fuel + 1, s =>
      if s.hasNext then
        let p := s.next
        let r := visitLoop fuel p.1
        (p.2 :: r.1, r.2)
      else ([], s)

/-- `rewind()` followed by iterating to exhaustion with `hasNext()`/`next()`:
the visited elements and the final state. -/
def ScanState.visitAll (s : ScanState) : List (Option BadChunk) × ScanState :=
  visitLoop s.badChunks.length s.rewind

/-! ## Helper lemmas: the delete-batch loop -/

/-- The accumulators of `runBatches` decompose: running with accumulated
count `acc` and issued list `iss` is the `0`/`[]` run with `acc`/`iss`
prepended. -/
theorem runBatches_acc (env : RemoveEnv) (bs : List (List Nat)) (t acc : Nat)
    (iss : List (List Nat)) :
    runBatches env bs t acc iss =
      { removedCount := acc + (runBatches env bs t 0 []).removedCount,
        time := (runBatches env bs t 0 []).time,
        issued := iss ++ (runBatches env bs t 0 []).issued,
        errorFlag := (runBatches env bs t 0 []).errorFlag,
        tripped := (runBatches env bs t 0 []).tripped } := by
  induction bs generalizing t acc iss with
  | nil => simp [runBatches]
  | cons b bs ih =>
    simp only [runBatches]
    split
    · simp
    · split
      · simp
      · rw [ih (t + 1) (0 + List.length b) ([] ++ [b]),
          ih (t + 1) (acc + List.length b) (iss ++ [b])]
        simp [Nat.add_assoc]

/-- Each issued delete advances the batch clock by one: the final time is the
start time plus the number of deletes issued. -/
theorem runBatches_time (env : RemoveEnv) (bs : List (List Nat)) (t : Nat) :
    (runBatches env bs t 0 []).time = t + (runBatches env bs t 0 []).issued.length := by
  induction bs generalizing t with
  | nil => simp [runBatches]
  | cons b bs ih =>
    simp only [runBatches]
    split
    · simp
    · split
      · simp
      · rw [runBatches_acc env bs (t + 1) (0 + List.length b) ([] ++ [b])]
        simp only [List.nil_append, List.singleton_append, List.length_cons]
        rw [ih (t + 1)]
        omega

/-- With paranoia on, every delete the loop issues was issued at a batch time
where the balancer was observed inactive. -/
theorem runBatches_safety (env : RemoveEnv) (bs : List (List Nat)) (t : Nat)
    (hp : env.paranoia = true) :
    ∀ k < (runBatches env bs t 0 []).issued.length,
      env.balancerActive (t + k) = false := by
  induction bs generalizing t with
  | nil => simp [runBatches]
  | cons b bs ih =>
    simp only [runBatches]
    split
    · simp
    · rename_i hnb
      have hb : env.balancerActive t = false := by
        by_contra hcon
        exact hnb (by simp [hp, eq_true_of_ne_false (fun h => hcon h)])
      split
      · intro k hk
        simp only [List.nil_append, List.length_cons, List.length_nil] at hk
        interval_cases k
        · simpa using hb
      · rw [runBatches_acc env bs (t + 1) (0 + List.length b) ([] ++ [b])]
        intro k hk
        simp only [List.nil_append, List.singleton_append, List.length_cons] at hk ⊢
        match k with
        | 0 => simpa using hb
        | k + 1 =>
          have := ih (t + 1) k (by omega)
          simpa [Nat.add_comm, Nat.add_left_comm] using this

/-- A paranoia trip happened at the batch time right after the last issued
delete, the balancer was observed active there, and paranoia was on. -/
theorem runBatches_trip (env : RemoveEnv) (bs : List (List Nat)) (t : Nat)
    (htr : (runBatches env bs t 0 []).tripped = true) :
    env.paranoia = true ∧
    env.balancerActive (t + (runBatches env bs t 0 []).issued.length) = true := by
  induction bs generalizing t with
  | nil => simp [runBatches] at htr
  | cons b bs ih =>
    by_cases h1 : (env.paranoia && env.balancerActive t) = true
    · rw [Bool.and_eq_true] at h1
      simp [runBatches, h1.1, h1.2]
    · rw [Bool.not_eq_true] at h1
      by_cases h2 : env.deleteError t = true
      · simp [runBatches, h1, h2] at htr
      · rw [Bool.not_eq_true] at h2
        simp only [runBatches, h1, h2, Bool.false_eq_true, if_false] at htr ⊢
        rw [runBatches_acc env bs (t + 1) (0 + List.length b) ([] ++ [b])] at htr ⊢
        simp only at htr
        have := ih (t + 1) htr
        simp only [List.nil_append, List.singleton_append, List.length_cons]
        refine ⟨this.1, ?_⟩
        have h3 := this.2
        rw [show t + 1 + (runBatches env bs (t + 1) 0 []).issued.length =
          t + ((runBatches env bs (t + 1) 0 []).issued.length + 1) from by omega] at h3
        exact h3

/-- If the balancer check passes through batch `k` but the delete at relative
batch index `k` reports an error (the earlier deletes succeeding), the loop
stops there: it issues exactly the first `k + 1` batches, counts only the
first `k` as removed, and sets the error flag. -/
theorem runBatches_deleteError (env : RemoveEnv) :
    ∀ (k : Nat) (bs : List (List Nat)) (t : Nat),
      k < bs.length →
      (∀ j, j ≤ k → (env.paranoia && env.balancerActive (t + j)) = false) →
      (∀ j, j < k → env.deleteError (t + j) = false) →
      env.deleteError (t + k) = true →
      runBatches env bs t 0 [] =
        ⟨((bs.take k).map List.length).sum, t + k + 1, bs.take (k + 1), true, false⟩ := by
  intro k
  induction k with
  | zero =>
    intro bs t hk hb hd he
    match bs, hk with
    | b :: bs', _ =>
      have h1 : (env.paranoia && env.balancerActive t) = false := by
        simpa using hb 0 (Nat.le_refl 0)
      have h2 : env.deleteError t = true := by simpa using he
      simp [runBatches, h1, h2]
  | succ k ih =>
    intro bs t hk hb hd he
    match bs, hk with
    | b :: bs', hk =>
      have h1 : (env.paranoia && env.balancerActive t) = false := by
        simpa using hb 0 (by omega)
      have h2 : env.deleteError t = false := by simpa using hd 0 (by omega)
      simp only [runBatches, h1, Bool.false_eq_true, if_false, h2]
      rw [runBatches_acc env bs' (t + 1) (0 + List.length b) ([] ++ [b])]
      rw [ih bs' (t + 1) (by simpa using Nat.lt_of_succ_lt_succ hk)
        (fun j hj => by
          have := hb (j + 1) (by omega)
          rwa [show t + (j + 1) = t + 1 + j from by omega] at this)
        (fun j hj => by
          have := hd (j + 1) (by omega)
          rwa [show t + (j + 1) = t + 1 + j from by omega] at this)
        (by
          have := he
          rwa [show t + (k + 1) = t + 1 + k from by omega] at this)]
      simp only [BatchOut.mk.injEq, List.take_succ_cons, List.map_cons,
        List.sum_cons, List.nil_append, List.singleton_append, List.cons.injEq,
        and_true, true_and, eq_self_iff_true]
      omega

/-! ## Helper lemmas: `remove` -/

/-- `remove` leaves every field except the heap untouched, and preserves the
heap's length. -/
theorem remove_frame (s : ScanState) (env : RemoveEnv) (t : Nat) :
    ∃ h2 : List BadChunk, (s.remove env t).st = { s with heap := h2 } ∧
      h2.length = s.heap.length := by
  unfold ScanState.remove ScanState.removeCore
  repeat' split
  all_goals first
    | exact ⟨s.heap, rfl, rfl⟩
    | exact ⟨_, rfl, by simp⟩

/-- `remove` either takes a guard clause — which happens only when the scan
found nothing, the cursor has no current chunk, or the current chunk is
already removed, and then has no observable effect — or runs the batch loop
on the current chunk object, which exists and is not yet removed. -/
theorem remove_cases (s : ScanState) (env : RemoveEnv) (t : Nat) :
    ((s.count = 0 ∨ s.current = none ∨
        ∃ bb, s.current = some bb ∧ bb.removed = true) ∧
      s.remove env t = ⟨s, 0, none, t, [], false⟩) ∨
    ∃ r b, s.badChunks[s.iter.toNat]? = some r ∧ s.heap[r]? = some b ∧
      s.current = some b ∧ b.removed = false ∧ 0 ≤ s.iter ∧
      s.remove env t =
        s.removeCore r b
          (runBatches env (batchesOf (env.docs b.orphanedOn b.chunk.min b.chunk.max)) t 0 []) := by
  have hcur : ∀ (hi : ¬ s.iter < 0),
      s.current = s.badChunks[s.iter.toNat]?.bind (fun r => s.heap[r]?) := by
    intro hi
    unfold ScanState.current ScanState.currentRef
    rw [if_neg hi]
  unfold ScanState.remove
  by_cases h1 : s.count = 0 ∨ s.badChunks.length = 0
  · rw [if_pos h1]
    refine Or.inl ⟨?_, rfl⟩
    rcases h1 with h1 | h1
    · exact Or.inl h1
    · refine Or.inr (Or.inl ?_)
      by_cases hi : s.iter < 0
      · unfold ScanState.current ScanState.currentRef
        rw [if_pos hi]
        rfl
      · rw [hcur hi]
        rw [List.getElem?_eq_none (by omega : s.badChunks.length ≤ s.iter.toNat)]
        rfl
  · rw [if_neg h1]
    by_cases h2 : s.iter < 0
    · rw [if_pos h2]
      refine Or.inl ⟨Or.inr (Or.inl ?_), rfl⟩
      unfold ScanState.current ScanState.currentRef
      rw [if_pos h2]
      rfl
    · rw [if_neg h2]
      by_cases h3 : (s.badChunks.length : Int) ≤ s.iter
      · rw [if_pos h3]
        refine Or.inl ⟨Or.inr (Or.inl ?_), rfl⟩
        rw [hcur h2]
        rw [List.getElem?_eq_none (by omega : s.badChunks.length ≤ s.iter.toNat)]
        rfl
      · rw [if_neg h3]
        split
        · rename_i hr
          refine Or.inl ⟨Or.inr (Or.inl ?_), rfl⟩
          rw [hcur h2, hr]
          rfl
        · rename_i r hr
          split
          · rename_i hb
            refine Or.inl ⟨Or.inr (Or.inl ?_), rfl⟩
            rw [hcur h2, hr]
            simpa using hb
          · rename_i b hb
            have hcb : s.current = some b := by
              rw [hcur h2, hr]
              simpa using hb
            by_cases h4 : b.removed
            · rw [if_pos h4]
              exact Or.inl ⟨Or.inr (Or.inr ⟨b, hcb, h4⟩), rfl⟩
            · rw [if_neg h4]
              exact Or.inr ⟨r, b, hr, hb, hcb, by simpa using h4, by omega, rfl⟩

/-- The returned count, batch clock and issued-delete list of `removeCore`
are those of the batch loop, in every branch. -/
theorem removeCore_proj (s : ScanState) (r : Nat) (b : BadChunk)
    (out : BatchOut) :
    (s.removeCore r b out).time = out.time ∧
    (s.removeCore r b out).issued = out.issued ∧
    (s.removeCore r b out).ret = out.removedCount := by
  unfold ScanState.removeCore
  by_cases h1 : out.tripped
  · simp [h1]
  · by_cases h2 : out.errorFlag
    · simp [h1, h2]
    · simp [h1, h2]

/-- `removeCore` throws exactly on a paranoia trip, with the balancer assert
message, and then leaves the scan state unchanged. -/
theorem removeCore_thrown (s : ScanState) (r : Nat) (b : BadChunk)
    (out : BatchOut) (m : String)
    (hm : (s.removeCore r b out).thrown = some m) :
    m = balancerMsg ∧ (s.removeCore r b out).st = s ∧ out.tripped = true := by
  unfold ScanState.removeCore at hm ⊢
  by_cases h1 : out.tripped
  · rw [if_pos h1] at hm ⊢
    have hmsg : balancerMsg = m := by simpa using hm
    exact ⟨hmsg.symm, rfl, h1⟩
  · rw [if_neg h1] at hm
    by_cases h2 : out.errorFlag
    · rw [if_pos h2] at hm
      simp at hm
    · rw [if_neg h2] at hm
      simp at hm

/-- The batch clock advances by exactly one step per issued delete. -/
theorem remove_time (s : ScanState) (env : RemoveEnv) (t : Nat) :
    (s.remove env t).time = t + (s.remove env t).issued.length := by
  rcases remove_cases s env t with ⟨_, h⟩ | ⟨r, b, _, _, _, _, _, h⟩
  · rw [h]; simp
  · rw [h]
    rcases removeCore_proj s r b _ with ⟨h1, h2, _⟩
    rw [h1, h2, runBatches_time]

/-- With paranoia on, every delete `remove` issues is issued at a batch time
where the balancer was observed inactive. -/
theorem remove_safety (s : ScanState) (env : RemoveEnv) (t : Nat)
    (hp : env.paranoia = true) :
    ∀ k < (s.remove env t).issued.length, env.balancerActive (t + k) = false := by
  rcases remove_cases s env t with ⟨_, h⟩ | ⟨r, b, _, _, _, _, _, h⟩
  · rw [h]; simp
  · rw [h]
    rcases removeCore_proj s r b _ with ⟨_, h2, _⟩
    rw [h2]
    exact runBatches_safety env _ t hp

/-- If `remove` throws, the message is the balancer assert message, the scan
state is unchanged, and the balancer was observed active at the batch time
right after the last issued delete. -/
theorem remove_thrown (s : ScanState) (env : RemoveEnv) (t : Nat) (m : String)
    (hm : (s.remove env t).thrown = some m) :
    m = balancerMsg ∧ (s.remove env t).st = s ∧
    env.balancerActive (t + (s.remove env t).issued.length) = true := by
  rcases remove_cases s env t with ⟨_, h⟩ | ⟨r, b, _, _, _, _, _, h⟩
  · rw [h] at hm; simp at hm
  · rw [h] at hm ⊢
    rcases removeCore_thrown s r b _ m hm with ⟨hmsg, hst, htr⟩
    rcases removeCore_proj s r b _ with ⟨_, h2, _⟩
    rw [h2]
    exact ⟨hmsg, hst, (runBatches_trip env _ t htr).2⟩

/-- `remove` never clears a `removed` flag: heap cells already marked removed
are unchanged (their whole contents, `numRemoved` included). -/
theorem remove_mono (s : ScanState) (env : RemoveEnv) (t : Nat) :
    ∀ (j : Nat) (bb : BadChunk), s.heap[j]? = some bb → bb.removed = true →
      (s.remove env t).st.heap[j]? = some bb := by
  intro j bb hj hbb
  rcases remove_cases s env t with ⟨_, h⟩ | ⟨r, b, hr, hb, _, hrem, _, h⟩
  · rw [h]; exact hj
  · rw [h]
    unfold ScanState.removeCore
    by_cases h1 : (runBatches env (batchesOf (env.docs b.orphanedOn b.chunk.min b.chunk.max)) t 0 []).tripped
    · rw [if_pos h1]; exact hj
    · rw [if_neg h1]
      by_cases h2 : (runBatches env (batchesOf (env.docs b.orphanedOn b.chunk.min b.chunk.max)) t 0 []).errorFlag
      · rw [if_pos h2]; exact hj
      · rw [if_neg h2]
        have hjr : j ≠ r := by
          intro heq
          rw [heq, hb] at hj
          have hbbb : b = bb := by simpa using hj
          rw [← hbbb, hrem] at hbb
          exact Bool.false_ne_true hbb
        simpa [List.getElem?_set_ne (Ne.symm hjr)] using hj

/-! ## Helper lemmas: the `removeAll` loop -/

/-- Main invariant of the `removeAll` loop under paranoia: the loop appends
some list `rest` of delete batches, each issued at a batch time where the
balancer was observed inactive; if it throws, the message is the balancer
assert and the balancer was observed active right after the last issued
delete; and heap cells already marked removed survive untouched. -/
theorem removeAllLoop_spec (env : RemoveEnv) (hp : env.paranoia = true) :
    ∀ (fuel : Nat) (s : ScanState) (num t : Nat) (iss : List (List Nat)),
      ∃ rest : List (List Nat),
        (removeAllLoop env fuel s num t iss).issued = iss ++ rest ∧
        (removeAllLoop env fuel s num t iss).time = t + rest.length ∧
        (∀ k < rest.length, env.balancerActive (t + k) = false) ∧
        ((removeAllLoop env fuel s num t iss).thrown.isSome →
          (removeAllLoop env fuel s num t iss).thrown = some balancerMsg ∧
          env.balancerActive (t + rest.length) = true) ∧
        (∀ (j : Nat) (bb : BadChunk), s.heap[j]? = some bb → bb.removed = true →
          (removeAllLoop env fuel s num t iss).st.heap[j]? = some bb) := by
  intro fuel
  induction fuel with
  | zero =>
    intro s num t iss
    refine ⟨[], by simp [removeAllLoop], by simp [removeAllLoop], by simp, ?_, ?_⟩
    · intro h; simp [removeAllLoop] at h
    · intro j bb hj _; simpa [removeAllLoop] using hj
  | succ fuel ih =>
    intro s num t iss
    by_cases hn : s.hasNext
    · simp only [removeAllLoop, hn, if_true]
      split
      · rename_i m hm
        have ht := remove_time { s with iter := s.iter + 1 } env t
        have hthr := remove_thrown { s with iter := s.iter + 1 } env t m hm
        refine ⟨(ScanState.remove { s with iter := s.iter + 1 } env t).issued,
          rfl, by rw [ht], ?_, ?_, ?_⟩
        · exact remove_safety { s with iter := s.iter + 1 } env t hp
        · intro _
          exact ⟨by rw [hthr.1], hthr.2.2⟩
        · intro j bb hj hbb
          rw [hthr.2.1]
          exact hj
      · rename_i hm
        have ht := remove_time { s with iter := s.iter + 1 } env t
        obtain ⟨rest2, hiss2, htime2, hsafe2, hthr2, hmono2⟩ :=
          ih (ScanState.remove { s with iter := s.iter + 1 } env t).st
            (num + (ScanState.remove { s with iter := s.iter + 1 } env t).ret)
            (ScanState.remove { s with iter := s.iter + 1 } env t).time
            (iss ++ (ScanState.remove { s with iter := s.iter + 1 } env t).issued)
        refine ⟨(ScanState.remove { s with iter := s.iter + 1 } env t).issued ++ rest2,
          ?_, ?_, ?_, ?_, ?_⟩
        · rw [hiss2, List.append_assoc]
        · rw [htime2, ht, List.length_append]; omega
        · intro k hk
          rw [List.length_append] at hk
          by_cases hk1 : k < (ScanState.remove { s with iter := s.iter + 1 } env t).issued.length
          · exact remove_safety { s with iter := s.iter + 1 } env t hp k hk1
          · have := hsafe2 (k - (ScanState.remove { s with iter := s.iter + 1 } env t).issued.length)
              (by omega)
            rw [ht] at this
            rw [show t + k = t +
              (ScanState.remove { s with iter := s.iter + 1 } env t).issued.length +
              (k - (ScanState.remove { s with iter := s.iter + 1 } env t).issued.length) from by omega]
            exact this
        · intro hsome
          rcases hthr2 hsome with ⟨hmsg, hact⟩
          refine ⟨hmsg, ?_⟩
          rw [ht] at hact
          rw [List.length_append,
            show t + ((ScanState.remove { s with iter := s.iter + 1 } env t).issued.length +
              rest2.length) = t +
              (ScanState.remove { s with iter := s.iter + 1 } env t).issued.length +
              rest2.length from by omega]
          exact hact
        · intro j bb hj hbb
          exact hmono2 j bb (remove_mono { s with iter := s.iter + 1 } env t j bb hj hbb) hbb
    · simp only [removeAllLoop, hn, if_false]
      refine ⟨[], by simp, by simp, by simp, ?_, ?_⟩
      · intro h; simp at h
      · intro j bb hj _; simpa using hj

/-- With fuel equal to the number of positions left, the `removeAll` loop
preserves the bad-chunk list, and — unless a paranoia assertion aborted it —
runs until `hasNext()` is false, its cursor ending on the last position. -/
theorem removeAllLoop_iter (env : RemoveEnv) :
    ∀ (fuel : Nat) (s : ScanState) (num t : Nat) (iss : List (List Nat)),
      s.iter + 1 + (fuel : Int) = s.badChunks.length →
      (removeAllLoop env fuel s num t iss).st.badChunks = s.badChunks ∧
      ((removeAllLoop env fuel s num t iss).thrown = none →
        (removeAllLoop env fuel s num t iss).st.iter + 1 = (s.badChunks.length : Int)) := by
  intro fuel
  induction fuel with
  | zero =>
    intro s num t iss hf
    refine ⟨rfl, fun _ => ?_⟩
    simpa using hf
  | succ fuel ih =>
    intro s num t iss hf
    have hn : s.hasNext = true := by
      simp only [ScanState.hasNext, gt_iff_lt, decide_eq_true_eq]
      push_cast at hf ⊢
      omega
    simp only [removeAllLoop, hn, if_true]
    split
    · rename_i m hm
      obtain ⟨h2, hst, hlen⟩ := remove_frame { s with iter := s.iter + 1 } env t
      refine ⟨?_, ?_⟩
      · rw [hst]
      · intro habs; simp at habs
    · rename_i hm
      obtain ⟨h2, hst, hlen⟩ := remove_frame { s with iter := s.iter + 1 } env t
      have hrst : (ScanState.remove { s with iter := s.iter + 1 } env t).st.iter + 1 +
          (fuel : Int) = (ScanState.remove { s with iter := s.iter + 1 } env t).st.badChunks.length := by
        rw [hst]
        push_cast at hf ⊢
        omega
      obtain ⟨hbc, hiter⟩ := ih (ScanState.remove { s with iter := s.iter + 1 } env t).st
        (num + (ScanState.remove { s with iter := s.iter + 1 } env t).ret)
        (ScanState.remove { s with iter := s.iter + 1 } env t).time
        (iss ++ (ScanState.remove { s with iter := s.iter + 1 } env t).issued) hrst
      refine ⟨by rw [hbc, hst], fun hnone => ?_⟩
      have hx := hiter hnone
      rw [hst] at hx ⊢
      simpa using hx

/-! ## Helper lemmas: cursor iteration -/

/-- The exhaustion loop changes nothing but the cursor position. -/
theorem visitLoop_frame :
    ∀ (fuel : Nat) (s : ScanState), ∃ i2 : Int,
      (visitLoop fuel s).2 = { s with iter := i2 } := by
  intro fuel
  induction fuel with
  | zero => intro s; exact ⟨s.iter, rfl⟩
  | succ fuel ih =>
    intro s
    by_cases hn : s.hasNext
    · simp only [visitLoop, hn, if_true]
      obtain ⟨i2, h⟩ := ih { s with iter := s.iter + 1 }
      exact ⟨i2, by simpa [ScanState.next] using h⟩
    · simp only [visitLoop, hn, if_false]
      exact ⟨s.iter, rfl⟩

/-- With fuel equal to the number of positions after the cursor, the
exhaustion loop returns exactly the heap lookups of the remaining
references, in order. -/
theorem visitLoop_visits :
    ∀ (fuel : Nat) (s : ScanState),
      0 ≤ s.iter + 1 →
      s.iter + 1 + (fuel : Int) = s.badChunks.length →
      (visitLoop fuel s).1 =
        (s.badChunks.drop (s.iter + 1).toNat).map (fun r => s.heap[r]?) := by
  intro fuel
  induction fuel with
  | zero =>
    intro s h0 hf
    have hlen : (s.iter + 1).toNat = s.badChunks.length := by omega
    simp [visitLoop, hlen]
  | succ fuel ih =>
    intro s h0 hf
    have hn : s.hasNext = true := by
      simp only [ScanState.hasNext, gt_iff_lt, decide_eq_true_eq]
      push_cast at hf ⊢
      omega
    have hidx : (s.iter + 1).toNat < s.badChunks.length := by omega
    have hdrop : s.badChunks.drop (s.iter + 1).toNat =
        s.badChunks[(s.iter + 1).toNat] :: s.badChunks.drop ((s.iter + 1).toNat + 1) :=
      List.drop_eq_getElem_cons hidx
    have ihh := ih { s with iter := s.iter + 1 }
      (by simp only; omega)
      (by simp only; push_cast at hf ⊢; omega)
    simp only [visitLoop, hn, if_true, ScanState.next]
    rw [hdrop, List.map_cons]
    have htoNat : (s.iter + 1 + 1).toNat = (s.iter + 1).toNat + 1 := by omega
    rw [ihh]
    simp only [htoNat]
    have hcur : ({ s with iter := s.iter + 1 } : ScanState).current =
        s.heap[s.badChunks[(s.iter + 1).toNat]]? := by
      unfold ScanState.current ScanState.currentRef
      simp only
      rw [if_neg (by omega : ¬ (s.iter + 1 < 0))]
      rw [List.getElem?_eq_getElem hidx]
      simp
    rw [hcur]

/-! ## Helper lemmas: the scan fold -/

/-- The chunk-min values of the observable bad-chunk entries. -/
def entryMins (st : ScanState) : List Int :=
  (scanEntries st).map (fun b => b.chunk.min)

/-- Every bad-chunk reference points into the heap. -/
def refsValid (st : ScanState) : Prop :=
  ∀ r ∈ st.badChunks, r < st.heap.length

/-- A successful `scanChunk` is `applyOffenders` on a state differing from
the input only in `maxRange` / `lastMin`. -/
theorem scanChunk_ok (p : Bool) (conns : List String)
    (q : String → Int → Int → Nat) (st : ScanState) (c : Chunk)
    (st1 : ScanState) (h : scanChunk p conns q st c = .ok st1) :
    ∃ mr lm, st1 =
      applyOffenders c { st with maxRange := mr, lastMin := lm }
        (offenders conns q c) := by
  unfold scanChunk at h
  by_cases hp : p
  · simp only [hp, if_true] at h
    by_cases h1 : ltOptKey st.maxRange c.max
    · rw [if_pos h1] at h
      exact ⟨some c.max, some c.min, by simpa [Except.map] using h.symm⟩
    · rw [if_neg h1] at h
      by_cases h2 : leOptKey st.lastMin c.min
      · rw [if_pos h2] at h
        exact ⟨st.maxRange, st.lastMin, by simpa [Except.map] using h.symm⟩
      · rw [if_neg h2] at h
        simp [Except.map] at h
  · simp only [hp, Bool.false_eq_true, if_false] at h
    exact ⟨st.maxRange, st.lastMin, by simpa [Except.map] using h.symm⟩

/-- The observable entries `applyOffenders` appends: `off.length` copies of
one cell carrying the last offender's attribution. -/
theorem scanEntries_applyOffenders (c : Chunk) (st : ScanState)
    (off : List (String × Nat)) (hv : refsValid st) :
    scanEntries (applyOffenders c st off) =
      scanEntries st ++
        (match off.getLast? with
         | none => []
         | some last =>
             List.replicate off.length (⟨c, last.1, last.2, false, 0⟩ : BadChunk)) := by
  cases hl : off.getLast? with
  | none => simp [applyOffenders, hl]
  | some last =>
    simp only [applyOffenders, hl, scanEntries]
    rw [List.filterMap_append]
    congr 1
    · refine List.filterMap_congr (fun r hr => ?_)
      exact List.getElem?_append_left (hv r hr)
    · rw [List.filterMap_replicate]
      simp [List.getElem?_concat_length]

/-- `applyOffenders` keeps references valid. -/
theorem refsValid_applyOffenders (c : Chunk) (st : ScanState)
    (off : List (String × Nat)) (hv : refsValid st) :
    refsValid (applyOffenders c st off) := by
  cases hl : off.getLast? with
  | none => simpa [applyOffenders, hl] using hv
  | some last =>
    intro r hr
    simp only [applyOffenders, hl, List.mem_append] at hr
    simp only [applyOffenders, hl, List.length_append, List.length_cons,
      List.length_nil]
    rcases hr with hr | hr
    · have := hv r hr
      omega
    · have := List.eq_of_mem_replicate hr
      omega

/-- Invariant induction over the chunk fold of `Orphans.find`: starting from
a state whose entries are sorted by chunk-min and dominated by every chunk
still to scan, a successful fold over min-sorted chunks ends with entries
sorted by chunk-min. -/
theorem scan_fold_sorted (p : Bool) (conns : List String)
    (q : String → Int → Int → Nat) :
    ∀ (chunks : List Chunk) (st st' : ScanState),
      List.Pairwise (fun a b : Chunk => a.min ≤ b.min) chunks →
      refsValid st →
      List.Pairwise (· ≤ ·) (entryMins st) →
      (∀ m ∈ entryMins st, ∀ c ∈ chunks, m ≤ c.min) →
      List.foldlM (scanChunk p conns q) st chunks = Except.ok st' →
      List.Pairwise (· ≤ ·) (entryMins st') := by
  intro chunks
  induction chunks with
  | nil =>
    intro st st' _ _ hs _ hfold
    rw [List.foldlM_nil] at hfold
    have : st = st' := Except.ok.inj hfold
    rwa [← this]
  | cons c cs ih =>
    intro st st' hpw hv hs hdom hfold
    rw [List.foldlM_cons] at hfold
    cases hsc : scanChunk p conns q st c with
    | error e => rw [hsc] at hfold; exact absurd hfold (by simp [Bind.bind, Except.bind])
    | ok st1 =>
      rw [hsc] at hfold
      have hfold1 : List.foldlM (scanChunk p conns q) st1 cs = Except.ok st' := hfold
      obtain ⟨mr, lm, hst1⟩ := scanChunk_ok p conns q st c st1 hsc
      rw [List.pairwise_cons] at hpw
      have hvmid : refsValid { st with maxRange := mr, lastMin := lm } := hv
      have hentry : scanEntries st1 =
          scanEntries st ++
            (match (offenders conns q c).getLast? with
             | none => []
             | some last =>
                 List.replicate (offenders conns q c).length
                   (⟨c, last.1, last.2, false, 0⟩ : BadChunk)) := by
        rw [hst1]
        exact scanEntries_applyOffenders c _ _ hvmid
      have hmins : entryMins st1 = entryMins st ++
          (match (offenders conns q c).getLast? with
           | none => []
           | some _ => List.replicate (offenders conns q c).length c.min) := by
        unfold entryMins
        rw [hentry, List.map_append]
        congr 1
        cases (offenders conns q c).getLast? with
        | none => simp
        | some last => simp [List.map_replicate]
      refine ih st1 st' hpw.2 ?_ ?_ ?_ hfold1
      · rw [hst1]
        exact refsValid_applyOffenders c _ _ hvmid
      · rw [hmins, List.pairwise_append]
        refine ⟨hs, ?_, ?_⟩
        · cases (offenders conns q c).getLast? with
          | none => simp
          | some last =>
            rw [List.pairwise_replicate]
            exact Or.inr (le_refl c.min)
        · intro a ha b hb
          cases hoff : (offenders conns q c).getLast? with
          | none => rw [hoff] at hb; simp at hb
          | some last =>
            rw [hoff] at hb
            have hbc : b = c.min := List.eq_of_mem_replicate hb
            rw [hbc]
            exact hdom a ha c (List.mem_cons_self c cs)
      · intro m hm c' hc'
        rw [hmins, List.mem_append] at hm
        rcases hm with hm | hm
        · exact hdom m hm c' (List.mem_cons_of_mem c hc')
        · cases hoff : (offenders conns q c).getLast? with
          | none => rw [hoff] at hm; simp at hm
          | some last =>
            rw [hoff] at hm
            have : m = c.min := List.eq_of_mem_replicate hm
            rw [this]
            exact hpw.1 c' hc'

/-! ## Claims -/

/-- Scan environment with one chunk `[0, 10)` owned by `s1` and orphans on
two non-owning shards: one document on `s2`, two documents on `s3`. -/
def envC1 : FindEnv :=
  { isdbgrid := true, balancerState := false, balancerRunning := false,
    precise := true, shards := ["s1", "s2", "s3"], collCount := fun _ => 1,
    chunks := [⟨"c1", 0, 10, "s1"⟩],
    orphanQuery := fun sh _ _ => if sh = "s2" then 1 else if sh = "s3" then 2 else 0 }

/-- Claim C1, evaluated at a failing input: with orphans on two non-owning
shards (`s2` holds 1, `s3` holds 2) of a single chunk, the scan pushes the
same mutated chunk object twice, so the result holds TWO BadChunk entries
for the pair (chunk, `s3`) — both attributed to the last offending shard
`s3` with its count — and NO entry attributed to `s2`, even though the
per-shard tally (`count = 3`, `shardCounts`) recorded `s2`'s orphan.  This
contradicts the claim that at most one BadChunk exists per
(chunk, offending-shard) pair and that each entry is attributed to the
shard on which its orphans were counted. -/
theorem c1_aliased_badChunk_eval :
    (Orphans.find envC1).toOption.map
        (fun st => (scanEntries st, st.count, st.shardCounts)) =
      some ([⟨⟨"c1", 0, 10, "s1"⟩, "s3", 2, false, 0⟩,
             ⟨⟨"c1", 0, 10, "s1"⟩, "s3", 2, false, 0⟩], 3,
            [("s2", 1), ("s3", 2)]) := by
  decide

/-- Scan environment in precise mode whose chunk cursor yields a duplicate
chunk (same bounds `[0, 10)`, as after a concurrent split), with one orphan
document on the non-owning shard `s2`. -/
def envC2 : FindEnv :=
  { isdbgrid := true, balancerState := false, balancerRunning := false,
    precise := true, shards := ["s1", "s2"], collCount := fun _ => 1,
    chunks := [⟨"c1", 0, 10, "s1"⟩, ⟨"c1b", 0, 10, "s1"⟩],
    orphanQuery := fun sh _ _ => if sh = "s2" then 1 else 0 }

/-- Claim C2, evaluated at a failing input: the second chunk's `max` does
not strictly exceed the previously seen `max`, so the precise-mode check
logs it as skipped ("Skipping chunk (split?)") — yet the scan still issues
the per-shard orphan queries for it and it still contributes to the
ScanResult: the single orphan is counted twice (`count = 2`) and a second
BadChunk entry is created for the duplicate chunk.  (The scan does continue
to subsequent chunks, as the claim says; what fails is that the "skipped"
chunk is queried and contributes.) -/
theorem c2_skipped_chunk_still_scanned_eval :
    (Orphans.find envC2).toOption.map (fun st => (st.count, scanEntries st)) =
      some (2, [⟨⟨"c1", 0, 10, "s1"⟩, "s2", 1, false, 0⟩,
                ⟨⟨"c1b", 0, 10, "s1"⟩, "s2", 1, false, 0⟩]) := by
  decide

/-- A scan result with exactly one BadChunk, cursor positioned on it (the
last element). -/
def stC3 : ScanState :=
  { heap := [⟨⟨"c1", 0, 10, "s1"⟩, "s2", 2, false, 0⟩], badChunks := [0],
    maxRange := some 10, lastMin := some 0, count := 2,
    shardCounts := [("s2", 2)], iter := 0 }

/-- Claim C3 counterexample: with the cursor already positioned at the last
BadChunk, calling `next()` does not fail with any error — it succeeds,
advances the position, and silently returns nothing (`undefined`), exactly
what the claim says it must not do. -/
theorem c3_next_past_end_counterexample :
    stC3.next = ({ stC3 with iter := 1 }, none) := by
  decide

/-- Claim C3 (amended): `next()` never fails; in every state it advances the
position by exactly one and returns the element at the new position, and
when called with no element remaining (`hasNext()` false, e.g. already at
the last element) it silently returns `none` rather than raising an error. -/
theorem c3_next_advances (s : ScanState) :
    (s.next).1 = { s with iter := s.iter + 1 } ∧
    (s.next).2 = (s.next).1.current ∧
    (s.hasNext = false → (s.next).2 = none) := by
  refine ⟨rfl, rfl, fun hn => ?_⟩
  simp only [ScanState.hasNext, gt_iff_lt, decide_eq_false_iff_not, not_lt] at hn
  show ({ s with iter := s.iter + 1 } : ScanState).current = none
  unfold ScanState.current ScanState.currentRef
  simp only
  by_cases h0 : s.iter + 1 < 0
  · rw [if_pos h0]
    rfl
  · rw [if_neg h0]
    rw [List.getElem?_eq_none (by omega : s.badChunks.length ≤ (s.iter + 1).toNat)]
    rfl

/-- Witness for the amended C3 at a concrete state: `stC3` is positioned at
its last BadChunk, and `next()` returns `none` without error. -/
theorem c3_next_advances_witness : (stC3.next).2 = none :=
  (c3_next_advances stC3).2.2 (by decide)

/-- A scan result with one not-yet-removed BadChunk and the cursor
positioned on it (position 0). -/
def stC4 : ScanState :=
  { heap := [⟨⟨"c1", 0, 10, "s1"⟩, "s2", 2, false, 0⟩], badChunks := [0],
    maxRange := some 10, lastMin := some 0, count := 2,
    shardCounts := [("s2", 2)], iter := 0 }

/-- A removal environment where the offending shard holds two orphan ids and
nothing goes wrong. -/
def envC4 : RemoveEnv :=
  { paranoia := false, balancerActive := fun _ => false,
    deleteError := fun _ => false, docs := fun _ _ _ => [1, 2] }

/-- Claim C4 counterexample: the cursor of `stC4` is at position 0, so under
the claim (`removeAll` removes only BadChunks at positions after the current
one) nothing would be removed and the returned sum would be 0.  The code
instead rewinds first: it removes the chunk at position 0, returns its count
2, and marks it removed. -/
theorem c4_removeAll_rewinds_counterexample :
    (stC4.removeAll envC4 0).ret = 2 ∧
    ((stC4.removeAll envC4 0).st.heap[0]?).map (fun b => b.removed) =
      some true := by
  decide

/-- Claim C4 (amended): `removeAll` first rewinds the cursor to before-first
— the cursor position it was called in is irrelevant to its result — and
then walks every BadChunk from position 0 to the end, summing the per-chunk
`remove()` returns; unless a balancer-paranoia assertion aborts the run, the
walk reaches the end of the list (one chunk's delete error does not abort
removal of subsequent chunks — the quantification includes environments
whose deletes fail), leaving the cursor past every position. -/
theorem c4_removeAll_walks_all (env : RemoveEnv) (s : ScanState) (t : Nat)
    (j : Int) :
    ScanState.removeAll { s with iter := j } env t = s.removeAll env t ∧
    ((s.removeAll env t).thrown = none →
      (s.removeAll env t).st.iter + 1 = (s.badChunks.length : Int) ∧
      (s.removeAll env t).st.badChunks = s.badChunks) := by
  constructor
  · rfl
  · intro hnone
    have hinv : (ScanState.rewind s).iter + 1 + ((s.badChunks.length : Nat) : Int) =
        ((ScanState.rewind s).badChunks.length : Int) := by
      simp [ScanState.rewind]
    obtain ⟨hbc, hiter⟩ :=
      removeAllLoop_iter env s.badChunks.length s.rewind 0 t [] hinv
    exact ⟨hiter hnone, hbc⟩

/-- Witness for the amended C4 at a concrete state: calling `removeAll` with
the cursor at position 0 equals calling it rewound, and the walk covers the
whole (one-element) list. -/
theorem c4_removeAll_walks_all_witness :
    ScanState.removeAll { stC4 with iter := 0 } envC4 0 = stC4.removeAll envC4 0 ∧
    (stC4.removeAll envC4 0).st.iter + 1 = (stC4.badChunks.length : Int) :=
  ⟨(c4_removeAll_walks_all envC4 stC4 0 0).1,
   ((c4_removeAll_walks_all envC4 stC4 0 0).2 (by decide)).1⟩

/-- A scan result whose single BadChunk is already marked removed, cursor on
it. -/
def stC5 : ScanState :=
  { heap := [⟨⟨"c1", 0, 10, "s1"⟩, "s2", 2, true, 2⟩], badChunks := [0],
    maxRange := some 10, lastMin := some 0, count := 2,
    shardCounts := [("s2", 2)], iter := 0 }

/-- A removal environment in which deleting would visibly do work (the
offending shard still reports an id), so that C5's "no delete issued" is not
vacuous. -/
def envC5 : RemoveEnv :=
  { paranoia := true, balancerActive := fun _ => false,
    deleteError := fun _ => false, docs := fun _ _ _ => [5] }

/-- Claim C5: `remove()` is idempotent on a removed chunk — if the current
BadChunk's `removed` flag is already set, `remove()` returns 0, issues no
delete commands, and leaves the whole scan state (the chunk's `removed` flag
and `numRemoved` included) unchanged. -/
theorem c5_remove_idempotent (s : ScanState) (env : RemoveEnv) (t : Nat)
    (b : BadChunk) (hc : s.current = some b) (hb : b.removed = true) :
    s.remove env t = ⟨s, 0, none, t, [], false⟩ := by
  rcases remove_cases s env t with ⟨_, h⟩ | ⟨r, b2, _, _, hcb, hrem, _, h⟩
  · exact h
  · rw [hc] at hcb
    have hbb : b = b2 := by simpa using hcb
    rw [← hbb, hb] at hrem
    exact absurd hrem (by simp)

/-- Witness for C5 at a concrete state: the already-removed chunk of `stC5`
is not removed again. -/
theorem c5_remove_idempotent_witness :
    stC5.remove envC5 0 = ⟨stC5, 0, none, 0, [], false⟩ :=
  c5_remove_idempotent stC5 envC5 0 ⟨⟨"c1", 0, 10, "s1"⟩, "s2", 2, true, 2⟩
    (by decide) (by decide)

/-- Claim C6: each `Orphans.find` precondition fails fast with its own
distinct error, before any shard connection is made or chunk examined — the
conclusion holds for every environment, whatever its shard list, collection
counts, chunk cursor output or query answers, so the error depends only on
the three probed flags. -/
theorem c6_preconditions_fail_fast (env : FindEnv) :
    (env.isdbgrid = false → Orphans.find env = .error "Not a sharded cluster") ∧
    (env.isdbgrid = true → env.balancerState = true →
      Orphans.find env = .error "Balancer must be stopped first") ∧
    (env.isdbgrid = true → env.balancerState = false →
      env.balancerRunning = true →
      Orphans.find env = .error "Balancer is still running, wait for it to finish") ∧
    (("Not a sharded cluster" : String) ≠ "Balancer must be stopped first" ∧
     ("Not a sharded cluster" : String) ≠
       "Balancer is still running, wait for it to finish" ∧
     ("Balancer must be stopped first" : String) ≠
       "Balancer is still running, wait for it to finish") := by
  refine ⟨?_, ?_, ?_, by decide⟩
  · intro h1
    simp [Orphans.find, h1]
  · intro h1 h2
    simp [Orphans.find, h1, h2]
  · intro h1 h2 h3
    simp [Orphans.find, h1, h2, h3]

/-- Environment that is not a sharded cluster (with nonempty chunk and shard
data, which the failing scan never touches). -/
def envC6a : FindEnv :=
  { isdbgrid := false, balancerState := true, balancerRunning := true,
    precise := true, shards := ["s1"], collCount := fun _ => 1,
    chunks := [⟨"c1", 0, 10, "s1"⟩], orphanQuery := fun _ _ _ => 7 }

/-- Environment whose balancer is still enabled. -/
def envC6b : FindEnv :=
  { envC6a with isdbgrid := true, balancerState := true, balancerRunning := false }

/-- Environment whose balancer is disabled but still mid-operation. -/
def envC6c : FindEnv :=
  { envC6a with isdbgrid := true, balancerState := false, balancerRunning := true }

/-- Witness for C6 at three concrete environments, one per precondition. -/
theorem c6_preconditions_fail_fast_witness :
    Orphans.find envC6a = .error "Not a sharded cluster" ∧
    Orphans.find envC6b = .error "Balancer must be stopped first" ∧
    Orphans.find envC6c = .error "Balancer is still running, wait for it to finish" :=
  ⟨(c6_preconditions_fail_fast envC6a).1 rfl,
   (c6_preconditions_fail_fast envC6b).2.1 rfl rfl,
   (c6_preconditions_fail_fast envC6c).2.2.1 rfl rfl rfl⟩

/-- Claim C7: with balancer paranoia on, (i) every bulk delete `removeAll`
issues was issued at a batch time where the balancer was observed stopped —
once the balancer is observed active the run throws before issuing any
further delete; (ii) if the run throws, the message is the
balancer-reenabled assertion and the balancer was indeed observed active at
the batch time right after the last issued delete; (iii) chunks already
marked removed keep their `removed` flag (and `numRemoved`) in the final
state. -/
theorem c7_balancer_paranoia_fencing (env : RemoveEnv) (s : ScanState)
    (t : Nat) (hp : env.paranoia = true) :
    (∀ k < (s.removeAll env t).issued.length,
      env.balancerActive (t + k) = false) ∧
    ((s.removeAll env t).thrown.isSome →
      (s.removeAll env t).thrown = some balancerMsg ∧
      env.balancerActive (t + (s.removeAll env t).issued.length) = true) ∧
    (∀ (j : Nat) (bb : BadChunk), s.heap[j]? = some bb → bb.removed = true →
      (s.removeAll env t).st.heap[j]? = some bb) := by
  obtain ⟨rest, hiss, htime, hsafe, hthr, hmono⟩ :=
    removeAllLoop_spec env hp s.badChunks.length s.rewind 0 t []
  have hieq : (s.removeAll env t).issued = rest := by
    show (removeAllLoop env s.badChunks.length s.rewind 0 t []).issued = rest
    rw [hiss]
    simp
  refine ⟨?_, ?_, ?_⟩
  · intro k hk
    rw [hieq] at hk
    exact hsafe k hk
  · intro hs
    rw [hieq]
    exact hthr hs
  · intro j bb hj hbb
    exact hmono j bb hj hbb

/-- Two not-yet-removed BadChunks on different shards, cursor before-first. -/
def stC7 : ScanState :=
  { heap := [⟨⟨"c1", 0, 10, "s1"⟩, "s2", 1, false, 0⟩,
             ⟨⟨"c2", 10, 20, "s1"⟩, "s3", 1, false, 0⟩],
    badChunks := [0, 1], maxRange := some 20, lastMin := some 10,
    count := 2, shardCounts := [("s2", 1), ("s3", 1)], iter := -1 }

/-- Paranoid removal environment in which the balancer becomes active after
the first delete batch (batch time 1). -/
def envC7 : RemoveEnv :=
  { paranoia := true, balancerActive := fun t => 1 ≤ t,
    deleteError := fun _ => false,
    docs := fun sh _ _ => if sh = "s2" then [7] else [8] }

/-- Witness for C7 at a concrete run: the balancer comes up between the two
chunks' batches; the run throws the balancer assertion, having observed the
balancer active right after its single issued delete. -/
theorem c7_balancer_paranoia_fencing_witness :
    (stC7.removeAll envC7 0).thrown = some balancerMsg ∧
    envC7.balancerActive (0 + (stC7.removeAll envC7 0).issued.length) = true :=
  (c7_balancer_paranoia_fencing envC7 stC7 0 rfl).2.1 (by decide)

/-- Claim C8: (i) `rewind()` followed by iterating with `hasNext()`/`next()`
to exhaustion visits exactly the entries of the `badChunks` sequence, once
each, in order; (ii) repeating the rewind-and-iterate cycle from the state
the previous cycle ended in yields the same visit list — the iteration is
stable across rewinds; (iii) `hasNext()` is true exactly when at least one
position lies after the cursor; (iv) when the scan's chunk cursor output is
sorted by `min` (as the `sort({min: 1})` query guarantees), the scan's
BadChunk entries are in chunk-min order — entries of equal `min` appearing
in discovery order, since the scan only ever appends. -/
theorem c8_iteration_visits_all :
    (∀ s : ScanState,
      (s.visitAll).1 = s.badChunks.map (fun r => s.heap[r]?) ∧
      ((s.visitAll).2.visitAll).1 = (s.visitAll).1 ∧
      (s.hasNext = true ↔ s.iter + 1 < (s.badChunks.length : Int))) ∧
    (∀ (env : FindEnv) (st : ScanState),
      List.Pairwise (fun a b : Chunk => a.min ≤ b.min) env.chunks →
      Orphans.find env = .ok st →
      List.Pairwise (· ≤ ·) (entryMins st)) := by
  constructor
  · intro s
    refine ⟨?_, ?_, ?_⟩
    · have h := visitLoop_visits s.badChunks.length s.rewind
        (by simp only [ScanState.rewind]; omega)
        (by simp only [ScanState.rewind]; omega)
      simpa [ScanState.visitAll, ScanState.rewind] using h
    · show (ScanState.visitAll (visitLoop s.badChunks.length s.rewind).2).1 = _
      obtain ⟨i2, h2⟩ := visitLoop_frame s.badChunks.length s.rewind
      rw [h2]
      rfl
    · simp [ScanState.hasNext]
  · intro env st hpw hfind
    unfold Orphans.find at hfind
    by_cases h1 : env.isdbgrid = false
    · rw [if_pos h1] at hfind
      exact absurd hfind (by simp)
    · rw [if_neg h1] at hfind
      by_cases h2 : env.balancerState
      · rw [if_pos h2] at hfind
        exact absurd hfind (by simp)
      · rw [if_neg h2] at hfind
        by_cases h3 : env.balancerRunning
        · rw [if_pos h3] at hfind
          exact absurd hfind (by simp)
        · rw [if_neg h3] at hfind
          refine scan_fold_sorted env.precise
            (env.shards.filter (fun sh => 0 < env.collCount sh))
            env.orphanQuery env.chunks initScan st hpw ?_ ?_ ?_ hfind
          · intro r hr
            simp [initScan] at hr
          · simp [entryMins, scanEntries, initScan]
          · intro m hm
            simp [entryMins, scanEntries, initScan] at hm

/-- Scan environment with two min-sorted chunks and one orphan on shard `s2`
in each. -/
def envC8 : FindEnv :=
  { isdbgrid := true, balancerState := false, balancerRunning := false,
    precise := true, shards := ["s1", "s2"], collCount := fun _ => 1,
    chunks := [⟨"c1", 0, 10, "s1"⟩, ⟨"c2", 10, 20, "s1"⟩],
    orphanQuery := fun sh _ _ => if sh = "s2" then 1 else 0 }

/-- The scan result `Orphans.find envC8` produces. -/
def stC8 : ScanState :=
  { heap := [⟨⟨"c1", 0, 10, "s1"⟩, "s2", 1, false, 0⟩,
             ⟨⟨"c2", 10, 20, "s1"⟩, "s2", 1, false, 0⟩],
    badChunks := [0, 1], maxRange := some 20, lastMin := some 10,
    count := 2, shardCounts := [("s2", 2)], iter := -1 }

/-- Witness for C8 at a concrete scan: the entries of the result of scanning
two min-sorted chunks are in chunk-min order. -/
theorem c8_iteration_visits_all_witness :
    List.Pairwise (· ≤ ·) (entryMins stC8) :=
  c8_iteration_visits_all.2 envC8 stC8 (by decide) (by rfl)

/-- Claim C9: if, during a chunk's removal, the delete of relative batch `k`
reports an error (earlier batches succeeding, no paranoia trip), the removal
stops at that batch: it issues exactly the first `k + 1` batches and nothing
after, returns the count of only the `k` committed batches (which are not
rolled back), reports the delete error, throws nothing, and leaves the scan
state — the chunk's `removed` flag and `numRemoved` included — completely
unchanged. -/
theorem c9_delete_error_isolated (s : ScanState) (env : RemoveEnv) (t : Nat)
    (b : BadChunk) (k : Nat)
    (hc : s.current = some b) (hbrem : b.removed = false)
    (hcount : s.count ≠ 0)
    (hk : k < (batchesOf (env.docs b.orphanedOn b.chunk.min b.chunk.max)).length)
    (hnb : ∀ j, j ≤ k → (env.paranoia && env.balancerActive (t + j)) = false)
    (hnd : ∀ j, j < k → env.deleteError (t + j) = false)
    (hd : env.deleteError (t + k) = true) :
    s.remove env t =
      ⟨s,
       (((batchesOf (env.docs b.orphanedOn b.chunk.min b.chunk.max)).take k).map
          List.length).sum,
       none, t + k + 1,
       (batchesOf (env.docs b.orphanedOn b.chunk.min b.chunk.max)).take (k + 1),
       true⟩ := by
  rcases remove_cases s env t with ⟨hreason, h⟩ | ⟨r, b2, hr, hb2, hcb, hrem, hiter, h⟩
  · exfalso
    rcases hreason with h0 | h0 | ⟨bb, hbb, hbbrem⟩
    · exact hcount h0
    · rw [hc] at h0
      simp at h0
    · rw [hc] at hbb
      have hbbb : b = bb := by simpa using hbb
      rw [← hbbb, hbrem] at hbbrem
      simp at hbbrem
  · rw [hc] at hcb
    have hbb : b = b2 := by simpa using hcb
    rw [← hbb] at h
    rw [h, runBatches_deleteError env k _ t hk hnb hnd hd]
    rfl

/-- A scan result with one not-yet-removed BadChunk holding 150 orphan ids
on shard `s2`, cursor on it. -/
def stC9 : ScanState :=
  { heap := [⟨⟨"c1", 0, 10, "s1"⟩, "s2", 150, false, 0⟩], badChunks := [0],
    maxRange := some 10, lastMin := some 0, count := 150,
    shardCounts := [("s2", 150)], iter := 0 }

/-- The BadChunk of `stC9`. -/
def bC9 : BadChunk := ⟨⟨"c1", 0, 10, "s1"⟩, "s2", 150, false, 0⟩

/-- Removal environment with 150 ids on the offending shard (two batches:
100 then 50) whose second delete (batch time 1) reports an error. -/
def envC9 : RemoveEnv :=
  { paranoia := false, balancerActive := fun _ => false,
    deleteError := fun t => t == 1,
    docs := fun _ _ _ => (List.range 150).map (fun i => i + 1) }

/-- Witness for C9 at a concrete run: the first batch of 100 commits, the
second batch's delete fails; `remove` returns 100, has issued both batches,
reports the error, and leaves the state unchanged. -/
theorem c9_delete_error_isolated_witness :
    stC9.remove envC9 0 =
      ⟨stC9,
       (((batchesOf (envC9.docs bC9.orphanedOn bC9.chunk.min bC9.chunk.max)).take 1).map
          List.length).sum,
       none, 0 + 1 + 1,
       (batchesOf (envC9.docs bC9.orphanedOn bC9.chunk.min bC9.chunk.max)).take (1 + 1),
       true⟩ :=
  c9_delete_error_isolated stC9 envC9 0 bC9 1 (by decide) (by decide)
    (by decide) (by decide) (by decide) (by decide) (by decide)

/-- Claim C10: a `remove()` call mutates nothing but the current BadChunk's
`removed` / `numRemoved` fields — after it returns, the result's `count`,
`shardCounts` tally, `badChunks` sequence (membership and order), cursor
position (and range-tracking fields) are identical to before; every heap
cell other than the one the cursor references is unchanged, and the
referenced cell keeps its chunk, `orphanedOn` and `orphanCount`. -/
theorem c10_remove_mutates_only_current (s : ScanState) (env : RemoveEnv)
    (t : Nat) :
    (s.remove env t).st.badChunks = s.badChunks ∧
    (s.remove env t).st.count = s.count ∧
    (s.remove env t).st.shardCounts = s.shardCounts ∧
    (s.remove env t).st.iter = s.iter ∧
    (s.remove env t).st.maxRange = s.maxRange ∧
    (s.remove env t).st.lastMin = s.lastMin ∧
    (s.remove env t).st.heap.length = s.heap.length ∧
    (∀ j : Nat, s.currentRef ≠ some j →
      (s.remove env t).st.heap[j]? = s.heap[j]?) ∧
    (∀ (j : Nat) (b : BadChunk), s.currentRef = some j → s.heap[j]? = some b →
      ∃ b2, (s.remove env t).st.heap[j]? = some b2 ∧ b2.chunk = b.chunk ∧
        b2.orphanedOn = b.orphanedOn ∧ b2.orphanCount = b.orphanCount) := by
  obtain ⟨hp2, hst, hlen⟩ := remove_frame s env t
  refine ⟨by rw [hst], by rw [hst], by rw [hst], by rw [hst], by rw [hst],
    by rw [hst], by rw [hst]; exact hlen, ?_, ?_⟩
  · intro j hj
    rcases remove_cases s env t with ⟨_, h⟩ | ⟨r, b2, hr, hb2, hcb, hrem, hiter, h⟩
    · rw [h]
    · have hcr : s.currentRef = some r := by
        unfold ScanState.currentRef
        rw [if_neg (by omega : ¬ s.iter < 0)]
        exact hr
      have hjr : j ≠ r := by
        intro heq
        rw [heq] at hj
        exact hj hcr
      rw [h]
      unfold ScanState.removeCore
      repeat' split
      · rfl
      · rfl
      · simp [List.getElem?_set_ne (Ne.symm hjr)]
  · intro j b hcj hjb
    rcases remove_cases s env t with ⟨_, h⟩ | ⟨r, b2, hr, hb2, hcb, hrem, hiter, h⟩
    · exact ⟨b, by rw [h]; exact hjb, rfl, rfl, rfl⟩
    · have hcr : s.currentRef = some r := by
        unfold ScanState.currentRef
        rw [if_neg (by omega : ¬ s.iter < 0)]
        exact hr
      rw [hcr] at hcj
      have hjr : j = r := by simpa using hcj.symm
      rw [hjr] at hjb ⊢
      rw [hb2] at hjb
      have hbb : b2 = b := by simpa using hjb
      have hrlt : r < s.heap.length := by
        by_contra hlt
        rw [List.getElem?_eq_none (by omega)] at hb2
        simp at hb2
      rw [h]
      unfold ScanState.removeCore
      repeat' split
      · exact ⟨b, by rw [hbb] at hb2; exact hb2, rfl, rfl, rfl⟩
      · exact ⟨b, by rw [hbb] at hb2; exact hb2, rfl, rfl, rfl⟩
      · refine ⟨_, by rw [List.getElem?_set_eq_of_lt _ hrlt], ?_, ?_, ?_⟩
        · rw [hbb]
        · rw [hbb]
        · rw [hbb]

/-- A scan result with two not-yet-removed BadChunks, cursor on position 0
(referencing heap cell 0). -/
def stC10 : ScanState :=
  { heap := [⟨⟨"c1", 0, 10, "s1"⟩, "s2", 1, false, 0⟩,
             ⟨⟨"c2", 10, 20, "s1"⟩, "s3", 1, false, 0⟩],
    badChunks := [0, 1], maxRange := some 20, lastMin := some 10,
    count := 2, shardCounts := [("s2", 1), ("s3", 1)], iter := 0 }

/-- The BadChunk at `stC10`'s current position. -/
def bC10 : BadChunk := ⟨⟨"c1", 0, 10, "s1"⟩, "s2", 1, false, 0⟩

/-- Removal environment whose delete succeeds (so the current chunk really
is mutated), for the C10 witness. -/
def envC10 : RemoveEnv :=
  { paranoia := true, balancerActive := fun _ => false,
    deleteError := fun _ => false, docs := fun _ _ _ => [3] }

/-- Witness for C10 at a concrete successful removal: the tally is
unchanged, the non-current heap cell is untouched, and the current cell
keeps its chunk and attribution. -/
theorem c10_remove_mutates_only_current_witness :
    (stC10.remove envC10 0).st.count = stC10.count ∧
    (stC10.remove envC10 0).st.heap[1]? = stC10.heap[1]? ∧
    (∃ b2, (stC10.remove envC10 0).st.heap[0]? = some b2 ∧
      b2.chunk = bC10.chunk ∧ b2.orphanedOn = bC10.orphanedOn ∧
      b2.orphanCount = bC10.orphanCount) :=
  ⟨(c10_remove_mutates_only_current stC10 envC10 0).2.1,
   (c10_remove_mutates_only_current stC10 envC10 0).2.2.2.2.2.2.2.1 1 (by decide),
   (c10_remove_mutates_only_current stC10 envC10 0).2.2.2.2.2.2.2.2 0 bC10
     (by decide) (by decide)⟩
